import Mathlib

/-!
# AVR interrupt-state primitives and exception context layout

A shallow embedding of `arch/avr/include/avr/irq.h`:

* the inline functions `getsreg`, `up_irq_enable`, `up_irq_save` and
  `up_irq_restore`, as state-passing functions over the CPU registers their
  inline assembly touches;
* the `REG_*` register save array indices, as functions of the two build-time
  selectors `AVR_HAS_RAMPZ` and `AVR_PC_SIZE`;
* the `up_getusrpc` macro, as a function of the saved register bytes.

Registers and bytes are natural numbers; an 8-bit register holds a number
below 256.
-/

namespace AvrIrq

/-! ## CPU state and the instructions used by the inline assembly -/

/-- The CPU registers read or written by the inline functions of `irq.h`:
the status register `SREG` (its bit 7 is the global interrupt enable flag `I`)
and the two bytes of the stack pointer. -/
structure Cpu where
  sreg : Nat
  sph : Nat
  spl : Nat
  deriving DecidableEq, Repr

/-- Instruction `in Rd, __SREG__`: load the 8-bit status register into a register. -/
def in_SREG (c : Cpu) : Nat :=
  c.sreg % 256

/-- Instruction `out __SREG__, Rr`: store an 8-bit register into the status register. -/
def out_SREG (r : Nat) (c : Cpu) : Cpu :=
  { c with sreg := r % 256 }

/-- Instruction `cli`: clear the global interrupt enable flag, bit 7 of the 8-bit `SREG`. -/
def cli (c : Cpu) : Cpu :=
  { c with sreg := c.sreg &&& 0x7F }

/-- Instruction `sei`: set the global interrupt enable flag, bit 7 of `SREG`. -/
def sei (c : Cpu) : Cpu :=
  { c with sreg := c.sreg ||| 0x80 }

/-! ## Inline functions -/

/-- Function `getsreg`: `in %0, __SREG__`; returns the value read, with the CPU state
after the call. -/
def getsreg (c : Cpu) : Nat × Cpu :=
  let sreg := in_SREG c
  (sreg, c)

/-- Function `up_irq_enable`: `sei`. -/
def up_irq_enable (c : Cpu) : Cpu :=
  sei c

/-- Function `up_irq_save`: `in %0, __SREG__` followed by `cli`; returns the value read
(an `irqstate_t`, one byte), with the CPU state after the call. -/
def up_irq_save (c : Cpu) : Nat × Cpu :=
  let sreg := in_SREG c
  let c := cli c
  (sreg, c)

/-- Function `up_irq_restore`: `out __SREG__, %0` with the `irqstate_t` argument
`flags`. -/
def up_irq_restore (flags : Nat) (c : Cpu) : Cpu :=
  out_SREG flags c

/-- Function `up_getsp`: `in %0, __SP_L__` and `in %1, __SP_H__` into two `uint8_t`
variables, then `(uint16_t)sph << 8 | spl` returned as a `uint16_t`. The cast
makes the shifted operand 16 bits wide and the result is converted to 16 bits,
so the value does not depend on the width of `int`. -/
def up_getsp (c : Cpu) : Nat × Cpu :=
  let spl := c.spl % 256
  let sph := c.sph % 256
  ((((sph % 65536) <<< 8) % 65536 ||| spl) % 65536, c)

/-! ## Register state save array indices -/

/-- The two build-time selectors the layout depends on. `AVR_HAS_RAMPZ` is
`true` when the macro of that name is defined; `AVR_PC_SIZE` is the value of
the macro of that name (the width of the program counter, in bits). Both
macros come from `arch/avr/avr.h`. -/
structure Config where
  AVR_HAS_RAMPZ : Bool
  AVR_PC_SIZE : Nat
  deriving DecidableEq, Repr

def REG_SPH : Nat := 0
def REG_SPL : Nat := 1
def REG_R27 : Nat := 2
def REG_R26 : Nat := 3
def REG_R31 : Nat := 4
def REG_R30 : Nat := 5
def REG_R29 : Nat := 6
def REG_R28 : Nat := 7
def REG_R23 : Nat := 8
def REG_R22 : Nat := 9
def REG_R21 : Nat := 10
def REG_R20 : Nat := 11
def REG_R19 : Nat := 12
def REG_R18 : Nat := 13
def REG_R17 : Nat := 14
def REG_R16 : Nat := 15
def REG_R15 : Nat := 16
def REG_R14 : Nat := 17
def REG_R13 : Nat := 18
def REG_R12 : Nat := 19
def REG_R11 : Nat := 20
def REG_R10 : Nat := 21
def REG_R9 : Nat := 22
def REG_R8 : Nat := 23
def REG_R7 : Nat := 24
def REG_R6 : Nat := 25
def REG_R5 : Nat := 26
def REG_R4 : Nat := 27
def REG_R3 : Nat := 28
def REG_R2 : Nat := 29
def REG_R1 : Nat := 30
def REG_R0 : Nat := 31

/-- Macro `REG_RAMPZ`, defined (as 32) only when `AVR_HAS_RAMPZ` is defined. -/
def REG_RAMPZ (cfg : Config) : Option Nat :=
  if cfg.AVR_HAS_RAMPZ then some 32 else none

/-- Macro `REG_OFFSET_RAMPZ`: 1 when `AVR_HAS_RAMPZ` is defined, 0 otherwise. -/
def REG_OFFSET_RAMPZ (cfg : Config) : Nat :=
  if cfg.AVR_HAS_RAMPZ then 1 else 0

def REG_SREG (cfg : Config) : Nat := 32 + REG_OFFSET_RAMPZ cfg
def REG_R25 (cfg : Config) : Nat := 33 + REG_OFFSET_RAMPZ cfg
def REG_R24 (cfg : Config) : Nat := 34 + REG_OFFSET_RAMPZ cfg
def REG_PC0 (cfg : Config) : Nat := 35 + REG_OFFSET_RAMPZ cfg
def REG_PC1 (cfg : Config) : Nat := 36 + REG_OFFSET_RAMPZ cfg

/-- Macro `REG_PC2`, defined only when `AVR_PC_SIZE > 16`. -/
def REG_PC2 (cfg : Config) : Option Nat :=
  if cfg.AVR_PC_SIZE > 16 then some (37 + REG_OFFSET_RAMPZ cfg) else none

/-- The names of the register save array indices, in the order in which the
header defines them. -/
inductive Reg where
  | SPH | SPL | R27 | R26 | R31 | R30 | R29 | R28
  | R23 | R22 | R21 | R20 | R19 | R18 | R17 | R16
  | R15 | R14 | R13 | R12 | R11 | R10 | R9 | R8
  | R7 | R6 | R5 | R4 | R3 | R2 | R1 | R0
  | RAMPZ | SREG | R25 | R24 | PC0 | PC1 | PC2
  deriving DecidableEq, Repr, Fintype

/-- The value of the index macro of each name, `none` when the build does not
define the macro. -/
def Reg.index (cfg : Config) : Reg → Option Nat
  | .SPH => some REG_SPH
  | .SPL => some REG_SPL
  | .R27 => some REG_R27
  | .R26 => some REG_R26
  | .R31 => some REG_R31
  | .R30 => some REG_R30
  | .R29 => some REG_R29
  | .R28 => some REG_R28
  | .R23 => some REG_R23
  | .R22 => some REG_R22
  | .R21 => some REG_R21
  | .R20 => some REG_R20
  | .R19 => some REG_R19
  | .R18 => some REG_R18
  | .R17 => some REG_R17
  | .R16 => some REG_R16
  | .R15 => some REG_R15
  | .R14 => some REG_R14
  | .R13 => some REG_R13
  | .R12 => some REG_R12
  | .R11 => some REG_R11
  | .R10 => some REG_R10
  | .R9 => some REG_R9
  | .R8 => some REG_R8
  | .R7 => some REG_R7
  | .R6 => some REG_R6
  | .R5 => some REG_R5
  | .R4 => some REG_R4
  | .R3 => some REG_R3
  | .R2 => some REG_R2
  | .R1 => some REG_R1
  | .R0 => some REG_R0
  | .RAMPZ => REG_RAMPZ cfg
  | .SREG => some (REG_SREG cfg)
  | .R25 => some (REG_R25 cfg)
  | .R24 => some (REG_R24 cfg)
  | .PC0 => some (REG_PC0 cfg)
  | .PC1 => some (REG_PC1 cfg)
  | .PC2 => REG_PC2 cfg

/-- Every index name, in the order of the header. -/
def Reg.all : List Reg :=
  [.SPH, .SPL, .R27, .R26, .R31, .R30, .R29, .R28,
   .R23, .R22, .R21, .R20, .R19, .R18, .R17, .R16,
   .R15, .R14, .R13, .R12, .R11, .R10, .R9, .R8,
   .R7, .R6, .R5, .R4, .R3, .R2, .R1, .R0,
   .RAMPZ, .SREG, .R25, .R24, .PC0, .PC1, .PC2]

/-- Whether a name is one of the program counter bytes. -/
def Reg.isPC : Reg → Bool
  | .PC0 => true
  | .PC1 => true
  | .PC2 => true
  | _ => false

/-- The indices of the names a build defines, in the order of the header. -/
def namedSlots (cfg : Config) : List Nat :=
  Reg.all.filterMap (Reg.index cfg)

/-- Width of the saved program counter in bytes: the number of `REG_PCn`
macros the build defines. -/
def pcBytes (cfg : Config) : Nat :=
  ((Reg.all.filter Reg.isPC).filterMap (Reg.index cfg)).length

/-- The build with the same selectors in canonical form: `AVR_PC_SIZE` only
matters through the test `AVR_PC_SIZE > 16`. -/
def Config.norm (cfg : Config) : Config :=
  ⟨cfg.AVR_HAS_RAMPZ, if cfg.AVR_PC_SIZE > 16 then 24 else 16⟩

/-- Index of the last program counter byte: `REG_PC2` when it is defined,
`REG_PC1` otherwise. -/
def lastPC (cfg : Config) : Nat :=
  (REG_PC2 cfg).getD (REG_PC1 cfg)

/-- Number of general-purpose and control register slots: the indices a
build defines other than the program counter bytes. -/
def fixedSlots (cfg : Config) : Nat :=
  ((Reg.all.filter (fun r => !r.isPC)).filterMap (Reg.index cfg)).length

/-- Modelled from the spec: `XCPTCONTEXT_REGS`, which `irq.h` uses for
`XCPTCONTEXT_SIZE` and for the length of `xcptcontext.regs` but does not
define. The spec gives it as the number of general-purpose/control slots plus
the program counter width. -/
def XCPTCONTEXT_REGS (cfg : Config) : Nat :=
  fixedSlots cfg + pcBytes cfg

/-- Macro `XCPTCONTEXT_SIZE`, defined as `XCPTCONTEXT_REGS`. -/
def XCPTCONTEXT_SIZE (cfg : Config) : Nat :=
  XCPTCONTEXT_REGS cfg

/-! ## Saved program counter extraction

`up_getusrpc` is a macro whose operands are `uint8_t` bytes. C promotes each
byte to `int` before shifting, so the shifts, the `|` and the result all have
type `int`. The width of `int` is a property of the toolchain, not of the
header, and is the parameter `intBits` below (16 for the AVR toolchain; C
guarantees at least 16). An `int` is represented by its two's complement bit
pattern, a natural number below `2 ^ intBits`; `intValue` gives the signed
value of a pattern. -/

/-- A register save area as seen through a `uint8_t *`: the content of the
byte at each offset. -/
abbrev RegBuf := Nat → Nat

/-- Expression `((uint8_t *)(regs))[i]`: the byte at offset `i`. -/
def loadU8 (regs : RegBuf) (i : Nat) : Nat :=
  regs i % 256

/-- Expression `e << n` in type `int`, for a promoted byte `e`: the bit pattern
of the result. The behaviour is undefined (`none`) when the shift count is not
less than the width of `int`; otherwise bits shifted beyond the width are
discarded (the header is GNU C, which defines `<<` on `int` as a two's
complement shift). -/
def shlInt (intBits e n : Nat) : Option Nat :=
  if n < intBits then some ((e <<< n) % 2 ^ intBits) else none

/-- The signed value of the `int` with the given two's complement pattern. -/
def intValue (intBits pattern : Nat) : Int :=
  if pattern < 2 ^ (intBits - 1) then (pattern : Int) else (pattern : Int) - 2 ^ intBits

/-- The macro `up_getusrpc(regs)`. `regs` is `none` for a null pointer;
`up_current_regs` is what the call `up_current_regs()` returns (`none` for a
null pointer, whose dereference is undefined). The result is the bit pattern of
the `int` the expression evaluates to, `none` when its behaviour is
undefined. The first branch is the `#if defined(REG_PC2)` definition, the
second the `#else` one. -/
def up_getusrpc (intBits : Nat) (cfg : Config) (up_current_regs : Option RegBuf)
    (regs : Option RegBuf) : Option Nat :=
  match REG_PC2 cfg with
  | some reg_pc2 =>
    match regs with
    | some r => do
      let b0 ← shlInt intBits (loadU8 r (REG_PC0 cfg)) 16
      let b1 ← shlInt intBits (loadU8 r (REG_PC1 cfg)) 8
      let b2 ← shlInt intBits (loadU8 r reg_pc2) 0
      pure (b0 ||| b1 ||| b2)
    | none => do
      let b0 ← shlInt intBits (loadU8 (← up_current_regs) (REG_PC0 cfg)) 16
      let b1 ← shlInt intBits (loadU8 (← up_current_regs) (REG_PC1 cfg)) 8
      let b2 ← shlInt intBits (loadU8 (← up_current_regs) reg_pc2) 0
      pure (b0 ||| b1 ||| b2)
  | none =>
    match regs with
    | some r => do
      let b0 ← shlInt intBits (loadU8 r (REG_PC0 cfg)) 8
      let b1 ← shlInt intBits (loadU8 r (REG_PC1 cfg)) 0
      pure (b0 ||| b1)
    | none => do
      let b0 ← shlInt intBits (loadU8 (← up_current_regs) (REG_PC0 cfg)) 8
      let b1 ← shlInt intBits (loadU8 (← up_current_regs) (REG_PC1 cfg)) 0
      pure (b0 ||| b1)

/-- A register save area holding `v0`, `v1`, `v2` in the three slots `i0`, `i1`,
`i2` and zero elsewhere. -/
def pcBuf (i0 v0 i1 v1 i2 v2 : Nat) : RegBuf :=
  fun i => if i = i0 then v0 else if i = i1 then v1 else if i = i2 then v2 else 0

/-! ## Interrupt-state primitive: theorems -/

/-- Bits of a byte at position 8 and above are clear. -/
theorem testBit_byte_high (s i : Nat) (hs : s < 256) (hi : 8 ≤ i) :
    s.testBit i = false := by
  apply Nat.testBit_lt_two_pow
  calc s < 2 ^ 8 := by simpa using hs
    _ ≤ 2 ^ i := Nat.pow_le_pow_right (by decide) hi

/-- C1: for every 8-bit initial status register value, `up_irq_save` followed by
`up_irq_restore` with the returned token leaves the status register (and the
rest of the CPU state) exactly as it was. -/
theorem up_irq_save_restore_roundtrip (c : Cpu) (h : c.sreg < 256) :
    (up_irq_restore (up_irq_save c).1 (up_irq_save c).2).sreg = c.sreg ∧
    up_irq_restore (up_irq_save c).1 (up_irq_save c).2 = c := by
  have h1 : c.sreg % 256 % 256 = c.sreg := by omega
  refine ⟨?_, ?_⟩
  · simp [up_irq_restore, up_irq_save, out_SREG, in_SREG, cli, h1]
  · cases c
    simp only [up_irq_restore, up_irq_save, out_SREG, in_SREG, cli] at h h1 ⊢
    simp [h1]

/-- Witness of C1 with interrupts enabled (`SREG = 0xA5`). -/
theorem up_irq_save_restore_roundtrip_witness :
    (0xA5 : Nat) < 256 ∧
    (up_irq_restore (up_irq_save ⟨0xA5, 0x21, 0xFF⟩).1
      (up_irq_save ⟨0xA5, 0x21, 0xFF⟩).2).sreg = 0xA5 ∧
    up_irq_restore (up_irq_save ⟨0xA5, 0x21, 0xFF⟩).1
      (up_irq_save ⟨0xA5, 0x21, 0xFF⟩).2 = ⟨0xA5, 0x21, 0xFF⟩ :=
  ⟨by decide, up_irq_save_restore_roundtrip ⟨0xA5, 0x21, 0xFF⟩ (by decide)⟩

/-- C2: for every 8-bit status register value, `up_irq_save` returns the full
value held before the call, and afterwards bit 7 of the status register is clear
while every other bit is unchanged. -/
theorem up_irq_save_spec (c : Cpu) (h : c.sreg < 256) :
    (up_irq_save c).1 = c.sreg ∧
    (up_irq_save c).2.sreg.testBit 7 = false ∧
    ∀ i, i ≠ 7 → (up_irq_save c).2.sreg.testBit i = c.sreg.testBit i := by
  have h127 : (0x7F : Nat) = 2 ^ 7 - 1 := by decide
  refine ⟨?_, ?_, ?_⟩
  · simp only [up_irq_save, in_SREG]
    omega
  · simp only [up_irq_save, cli, h127, Nat.testBit_and, Nat.testBit_two_pow_sub_one]
    simp
  · intro i hi
    simp only [up_irq_save, cli, h127, Nat.testBit_and, Nat.testBit_two_pow_sub_one]
    rcases Nat.lt_or_ge i 7 with hlt | hge
    · simp [hlt]
    · have h8 : 8 ≤ i := by omega
      simp [testBit_byte_high c.sreg i h h8]

/-- Witness of C2 with interrupts enabled (`SREG = 0xA5`): the token is `0xA5`,
bit 7 is cleared and bit 5 is kept. -/
theorem up_irq_save_spec_witness :
    (0xA5 : Nat) < 256 ∧
    (up_irq_save ⟨0xA5, 0x21, 0xFF⟩).1 = 0xA5 ∧
    (up_irq_save ⟨0xA5, 0x21, 0xFF⟩).2.sreg.testBit 7 = false ∧
    (up_irq_save ⟨0xA5, 0x21, 0xFF⟩).2.sreg.testBit 5 = (0xA5 : Nat).testBit 5 :=
  ⟨by decide, (up_irq_save_spec ⟨0xA5, 0x21, 0xFF⟩ (by decide)).1,
   (up_irq_save_spec ⟨0xA5, 0x21, 0xFF⟩ (by decide)).2.1,
   (up_irq_save_spec ⟨0xA5, 0x21, 0xFF⟩ (by decide)).2.2 5 (by decide)⟩

/-- C10: for every token `f` (one byte) and every CPU state, after
`up_irq_restore f` the status register equals `f`, bit for bit, whatever it
held before; the stack pointer bytes are untouched. -/
theorem up_irq_restore_verbatim (f : Nat) (hf : f < 256) (c : Cpu) :
    (up_irq_restore f c).sreg = f ∧
    (∀ i, (up_irq_restore f c).sreg.testBit i = f.testBit i) ∧
    (∀ c2 : Cpu, (up_irq_restore f c2).sreg = (up_irq_restore f c).sreg) ∧
    (up_irq_restore f c).sph = c.sph ∧ (up_irq_restore f c).spl = c.spl := by
  have h1 : f % 256 = f := Nat.mod_eq_of_lt hf
  simp [up_irq_restore, out_SREG, h1]

/-- Witness of C10: restoring the token `0x80` over a status register holding
`0x1F` leaves `0x80`. -/
theorem up_irq_restore_verbatim_witness :
    (0x80 : Nat) < 256 ∧ (up_irq_restore 0x80 ⟨0x1F, 0x21, 0xFF⟩).sreg = 0x80 :=
  ⟨by decide, (up_irq_restore_verbatim 0x80 (by decide) ⟨0x1F, 0x21, 0xFF⟩).1⟩

/-! ## Register save array layout: theorems -/

theorem REG_PC2_norm (cfg : Config) : REG_PC2 cfg.norm = REG_PC2 cfg := by
  unfold REG_PC2 REG_OFFSET_RAMPZ Config.norm
  by_cases h : cfg.AVR_PC_SIZE > 16 <;> simp [h]

theorem Reg.index_norm (cfg : Config) (r : Reg) : r.index cfg.norm = r.index cfg := by
  cases r <;> first | rfl | exact REG_PC2_norm cfg

theorem namedSlots_norm (cfg : Config) : namedSlots cfg.norm = namedSlots cfg := by
  unfold namedSlots
  congr 1
  funext r
  exact Reg.index_norm cfg r

theorem pcBytes_norm (cfg : Config) : pcBytes cfg.norm = pcBytes cfg := by
  unfold pcBytes
  congr 2
  funext r
  exact Reg.index_norm cfg r

theorem fixedSlots_norm (cfg : Config) : fixedSlots cfg.norm = fixedSlots cfg := by
  unfold fixedSlots
  congr 2
  funext r
  exact Reg.index_norm cfg r

theorem lastPC_norm (cfg : Config) : lastPC cfg.norm = lastPC cfg := by
  unfold lastPC
  rw [REG_PC2_norm]
  rfl

/-- A canonical build is one of the four variants. -/
theorem Config.norm_cases (cfg : Config) :
    cfg.norm = ⟨false, 16⟩ ∨ cfg.norm = ⟨false, 24⟩ ∨
    cfg.norm = ⟨true, 16⟩ ∨ cfg.norm = ⟨true, 24⟩ := by
  obtain ⟨b, n⟩ := cfg
  cases b <;> by_cases h : n > 16 <;> simp [Config.norm, h]

/-- Every index name is listed in `Reg.all`, once. -/
theorem Reg.all_complete : Reg.all.Nodup ∧ ∀ r : Reg, r ∈ Reg.all := by
  decide

/-- In every build the defined indices are, in header order, `0, 1, ..., n-1`. -/
theorem namedSlots_range (cfg : Config) :
    namedSlots cfg = List.range (namedSlots cfg).length := by
  rw [← namedSlots_norm]
  rcases Config.norm_cases cfg with h | h | h | h <;> rw [h] <;> decide

/-- Two names with the same index are the same name. -/
theorem Reg.index_injective (cfg : Config) (r s : Reg) (i : Nat)
    (hr : r.index cfg = some i) (hs : s.index cfg = some i) : r = s := by
  have key : ∀ c : Config, c = ⟨false, 16⟩ ∨ c = ⟨false, 24⟩ ∨ c = ⟨true, 16⟩ ∨ c = ⟨true, 24⟩ →
      ∀ r s : Reg, r.index c = s.index c → r.index c ≠ none → r = s := by
    intro c hc
    rcases hc with h | h | h | h <;> rw [h] <;> decide
  apply key cfg.norm (Config.norm_cases cfg) r s
  · rw [Reg.index_norm, Reg.index_norm, hr, hs]
  · rw [Reg.index_norm, hr]
    simp

/-- C3: in each variant the defined slot indices are pairwise distinct and form
exactly the set `0, ..., n-1`, where `n` is the number of defined slots: the list
of defined indices has no duplicate, a number is a defined index exactly when
it is below `n`, and two names never share an index. -/
theorem namedSlots_distinct_contiguous (cfg : Config) :
    (namedSlots cfg).Nodup ∧
    (∀ i, i ∈ namedSlots cfg ↔ i < (namedSlots cfg).length) ∧
    (∀ r s i, Reg.index cfg r = some i → Reg.index cfg s = some i → r = s) := by
  refine ⟨?_, ?_, ?_⟩
  · rw [namedSlots_range]
    exact List.nodup_range _
  · intro i
    conv_lhs => rw [namedSlots_range]
    exact List.mem_range
  · intro r s i hr hs
    exact Reg.index_injective cfg r s i hr hs


/-- Witness of C3 in the variant with `RAMPZ` and a 3-byte program counter:
39 slots, and only `REG_SREG` has index 33. -/
theorem namedSlots_distinct_contiguous_witness :
    (namedSlots ⟨true, 24⟩).length = 39 ∧
    (namedSlots ⟨true, 24⟩).Nodup ∧
    (38 ∈ namedSlots ⟨true, 24⟩ ↔ 38 < (namedSlots ⟨true, 24⟩).length) ∧
    Reg.SREG = Reg.SREG :=
  ⟨by decide, (namedSlots_distinct_contiguous ⟨true, 24⟩).1,
   (namedSlots_distinct_contiguous ⟨true, 24⟩).2.1 38,
   (namedSlots_distinct_contiguous ⟨true, 24⟩).2.2 Reg.SREG Reg.SREG 33 rfl rfl⟩

/-- C4: in each variant the program counter slots are the final 2 or 3 indices
of the layout, in the order `REG_PC0`, `REG_PC1` (, `REG_PC2`): they are
consecutive and increasing, every other defined index is below `REG_PC0`, and
the last program counter index is the largest defined index. -/
theorem pc_slots_final (cfg : Config) :
    REG_PC1 cfg = REG_PC0 cfg + 1 ∧
    (∀ pc2, REG_PC2 cfg = some pc2 → pc2 = REG_PC1 cfg + 1) ∧
    (pcBytes cfg = if cfg.AVR_PC_SIZE > 16 then 3 else 2) ∧
    ((REG_PC2 cfg).isSome = true ↔ pcBytes cfg = 3) ∧
    (∀ r i, Reg.index cfg r = some i → r.isPC = false → i < REG_PC0 cfg) ∧
    (∀ r i, Reg.index cfg r = some i → r.isPC = true →
      REG_PC0 cfg ≤ i ∧ i < REG_PC0 cfg + pcBytes cfg) ∧
    REG_PC0 cfg + pcBytes cfg = (namedSlots cfg).length ∧
    lastPC cfg + 1 = (namedSlots cfg).length ∧
    lastPC cfg ∈ namedSlots cfg ∧
    (∀ i, i ∈ namedSlots cfg → i ≤ lastPC cfg) := by
  obtain ⟨b, n⟩ := cfg
  have hlen : (namedSlots ⟨b, n⟩).length = lastPC ⟨b, n⟩ + 1 := by
    rw [← namedSlots_norm, ← lastPC_norm]
    rcases Config.norm_cases ⟨b, n⟩ with h | h | h | h <;> rw [h] <;> decide
  have hpc : pcBytes ⟨b, n⟩ = if n > 16 then 3 else 2 := by
    rw [← pcBytes_norm]
    by_cases h : n > 16 <;> cases b <;> simp only [Config.norm, h, if_true, if_false] <;> decide
  have hlast : lastPC ⟨b, n⟩ + 1 = REG_PC0 ⟨b, n⟩ + pcBytes ⟨b, n⟩ := by
    rw [hpc]
    by_cases h : n > 16 <;> simp [lastPC, REG_PC2, REG_PC1, REG_PC0, h] <;> omega
  refine ⟨by unfold REG_PC1 REG_PC0; omega, ?_, hpc, ?_, ?_, ?_, by omega, hlen.symm, ?_, ?_⟩
  · intro pc2 h2
    by_cases h : n > 16 <;> simp [REG_PC2, REG_PC1, h] at h2 ⊢
    omega
  · rw [hpc]
    by_cases h : n > 16 <;> simp [REG_PC2, h]
  · intro r i hr hnot
    cases r <;> cases b <;>
      simp_all [Reg.index, Reg.isPC, REG_RAMPZ, REG_OFFSET_RAMPZ, REG_SREG, REG_R25, REG_R24,
        REG_PC0, REG_SPH, REG_SPL, REG_R27, REG_R26, REG_R31, REG_R30, REG_R29, REG_R28,
        REG_R23, REG_R22, REG_R21, REG_R20, REG_R19, REG_R18, REG_R17, REG_R16, REG_R15,
        REG_R14, REG_R13, REG_R12, REG_R11, REG_R10, REG_R9, REG_R8, REG_R7, REG_R6, REG_R5,
        REG_R4, REG_R3, REG_R2, REG_R1, REG_R0] <;> omega
  · intro r i hr hpcr
    rw [hpc]
    cases r <;> simp [Reg.isPC] at hpcr <;>
      by_cases h : n > 16 <;>
      simp [Reg.index, REG_PC0, REG_PC1, REG_PC2, h] at hr ⊢ <;> omega
  · have hmem : lastPC ⟨b, n⟩ < (namedSlots ⟨b, n⟩).length := by omega
    rw [namedSlots_range]
    exact List.mem_range.mpr hmem
  · intro i hi
    rw [namedSlots_range] at hi
    have := List.mem_range.mp hi
    omega

/-- Witness of C4 in the variant with `RAMPZ` and a 3-byte program counter. -/
theorem pc_slots_final_witness :
    REG_PC0 ⟨true, 24⟩ = 36 ∧ REG_PC1 ⟨true, 24⟩ = 37 ∧ REG_PC2 ⟨true, 24⟩ = some 38 ∧
    (38 : Nat) = REG_PC1 ⟨true, 24⟩ + 1 ∧
    REG_SREG ⟨true, 24⟩ < REG_PC0 ⟨true, 24⟩ ∧
    lastPC ⟨true, 24⟩ + 1 = (namedSlots ⟨true, 24⟩).length :=
  ⟨by decide, by decide, by decide,
   (pc_slots_final ⟨true, 24⟩).2.1 38 (by decide),
   (pc_slots_final ⟨true, 24⟩).2.2.2.2.1 Reg.SREG _ rfl rfl,
   (pc_slots_final ⟨true, 24⟩).2.2.2.2.2.2.2.1⟩


/-- C5: in each variant `XCPTCONTEXT_SIZE` (also the length of
`xcptcontext.regs`, declared with the same macro) is the number of
general-purpose/control slots plus the program counter width, that is
`35 + (1 if RAMPZ is present) + (2 or 3)`, one more than the index of the last
program counter byte. -/
theorem XCPTCONTEXT_SIZE_eq (cfg : Config) :
    XCPTCONTEXT_SIZE cfg = fixedSlots cfg + pcBytes cfg ∧
    fixedSlots cfg = 35 + (if cfg.AVR_HAS_RAMPZ then 1 else 0) ∧
    pcBytes cfg = (if cfg.AVR_PC_SIZE > 16 then 3 else 2) ∧
    XCPTCONTEXT_SIZE cfg =
      35 + (if cfg.AVR_HAS_RAMPZ then 1 else 0) + (if cfg.AVR_PC_SIZE > 16 then 3 else 2) ∧
    XCPTCONTEXT_SIZE cfg = lastPC cfg + 1 ∧
    XCPTCONTEXT_SIZE cfg = (namedSlots cfg).length := by
  obtain ⟨b, n⟩ := cfg
  have hfix : fixedSlots ⟨b, n⟩ = 35 + (if b then 1 else 0) := by
    rw [← fixedSlots_norm]
    by_cases h : n > 16 <;> cases b <;> simp only [Config.norm, h, if_true, if_false] <;> decide
  have hpc : pcBytes ⟨b, n⟩ = if n > 16 then 3 else 2 := by
    rw [← pcBytes_norm]
    by_cases h : n > 16 <;> cases b <;> simp only [Config.norm, h, if_true, if_false] <;> decide
  have hlast : lastPC ⟨b, n⟩ + 1 = 35 + (if b then 1 else 0) + (if n > 16 then 3 else 2) := by
    by_cases h : n > 16 <;> cases b <;>
      simp [lastPC, REG_PC2, REG_PC1, REG_OFFSET_RAMPZ, h]
  have hlen : (namedSlots ⟨b, n⟩).length = lastPC ⟨b, n⟩ + 1 := by
    rw [← namedSlots_norm, ← lastPC_norm]
    rcases Config.norm_cases ⟨b, n⟩ with h | h | h | h <;> rw [h] <;> decide
  refine ⟨rfl, hfix, hpc, ?_, ?_, ?_⟩
  · simp only [XCPTCONTEXT_SIZE, XCPTCONTEXT_REGS, hfix, hpc]
  · simp only [XCPTCONTEXT_SIZE, XCPTCONTEXT_REGS, hfix, hpc, hlast]
  · simp only [XCPTCONTEXT_SIZE, XCPTCONTEXT_REGS, hfix, hpc, hlen, hlast]

/-- C6: for either program counter width and every name defined in both
layouts, the layout with `RAMPZ` gives the name an index one higher than the
layout without when it is at or after the status register slot (these names
are `REG_SREG`, `REG_R25`, `REG_R24`, `REG_PC0`, `REG_PC1`, `REG_PC2`), and the
same index when it is before it (indices 0 to 31). -/
theorem rampz_shift (pcSize : Nat) (r : Reg) (i j : Nat)
    (hoff : Reg.index ⟨false, pcSize⟩ r = some j)
    (hon : Reg.index ⟨true, pcSize⟩ r = some i) :
    (REG_SREG ⟨false, pcSize⟩ ≤ j → i = j + 1) ∧
    (j < REG_SREG ⟨false, pcSize⟩ → i = j) ∧
    (REG_SREG ⟨false, pcSize⟩ ≤ j ↔
      r ∈ [Reg.SREG, Reg.R25, Reg.R24, Reg.PC0, Reg.PC1, Reg.PC2]) ∧
    (j < REG_SREG ⟨false, pcSize⟩ ↔ j ≤ 31) := by
  have hs : REG_SREG ⟨false, pcSize⟩ = 32 := rfl
  rw [hs]
  cases r <;>
    simp [Reg.index, REG_RAMPZ, REG_OFFSET_RAMPZ, REG_SREG, REG_R25, REG_R24,
      REG_PC0, REG_PC1, REG_PC2, REG_SPH, REG_SPL, REG_R27, REG_R26, REG_R31, REG_R30,
      REG_R29, REG_R28, REG_R23, REG_R22, REG_R21, REG_R20, REG_R19, REG_R18, REG_R17,
      REG_R16, REG_R15, REG_R14, REG_R13, REG_R12, REG_R11, REG_R10, REG_R9, REG_R8,
      REG_R7, REG_R6, REG_R5, REG_R4, REG_R3, REG_R2, REG_R1, REG_R0] at hoff hon ⊢ <;>
    omega

/-- Witness of C6: `REG_SREG` moves from 32 to 33 (2-byte program counter). -/
theorem rampz_shift_witness :
    Reg.index ⟨false, 16⟩ Reg.SREG = some 32 ∧ Reg.index ⟨true, 16⟩ Reg.SREG = some 33 ∧
    ((REG_SREG ⟨false, 16⟩ ≤ 32 → 33 = 32 + 1) ∧
    (32 < REG_SREG ⟨false, 16⟩ → 33 = 32) ∧
    (REG_SREG ⟨false, 16⟩ ≤ 32 ↔
      Reg.SREG ∈ [Reg.SREG, Reg.R25, Reg.R24, Reg.PC0, Reg.PC1, Reg.PC2]) ∧
    (32 < REG_SREG ⟨false, 16⟩ ↔ 32 ≤ 31)) :=
  ⟨rfl, rfl, rampz_shift 16 Reg.SREG 33 32 rfl rfl⟩


/-! ## Saved program counter extraction: theorems -/

/-- A byte shifted left by 8 and or-ed with a byte is `256 * hi + lo`. -/
theorem shl8_or (hi lo : Nat) (hlo : lo < 256) : hi <<< 8 ||| lo = 256 * hi + lo := by
  have h := Nat.mul_add_lt_is_or (i := 8) (b := lo) (by simpa using hlo) hi
  rw [Nat.shiftLeft_eq, Nat.mul_comm]
  simpa using h.symm

/-- Three bytes shifted by 16, 8 and 0 and or-ed give
`65536 * b0 + 256 * b1 + b2`. -/
theorem shl16_or (b0 b1 b2 : Nat) (h1 : b1 < 256) (h2 : b2 < 256) :
    b0 <<< 16 ||| b1 <<< 8 ||| b2 <<< 0 = 65536 * b0 + 256 * b1 + b2 := by
  have hb1 : b1 <<< 8 < 2 ^ 16 := by
    rw [Nat.shiftLeft_eq]
    norm_num
    omega
  have ha := Nat.mul_add_lt_is_or (i := 16) (b := b1 <<< 8) hb1 b0
  have hb := Nat.mul_add_lt_is_or (i := 8) (b := b2) (by simpa using h2) (256 * b0 + b1)
  have e0 : b0 <<< 16 = 2 ^ 16 * b0 := by rw [Nat.shiftLeft_eq, Nat.mul_comm]
  have e1 : 2 ^ 16 * b0 + b1 <<< 8 = 2 ^ 8 * (256 * b0 + b1) := by
    rw [Nat.shiftLeft_eq]
    norm_num
    omega
  rw [Nat.shiftLeft_zero, e0, ← ha, e1, ← hb]
  norm_num
  omega

theorem loadU8_lt (regs : RegBuf) (i : Nat) : loadU8 regs i < 256 :=
  Nat.mod_lt _ (by decide)

/-- A shift whose count is below the width of `int` and whose result fits in
the width is defined and exact. -/
theorem shlInt_exact (intBits e n : Nat) (hn : n < intBits) (he : e <<< n < 2 ^ intBits) :
    shlInt intBits e n = some (e <<< n) := by
  simp [shlInt, hn, Nat.mod_eq_of_lt he]

/-- A shift by at least the width of `int` is undefined. -/
theorem shlInt_undefined (intBits e n : Nat) (hn : intBits ≤ n) :
    shlInt intBits e n = none := by
  simp [shlInt, Nat.not_lt.mpr hn]


theorem byte_shl8_lt (intBits e : Nat) (h16 : 16 ≤ intBits) (he : e < 256) :
    e <<< 8 < 2 ^ intBits := by
  have h1 : e <<< 8 < 2 ^ 16 := by
    rw [Nat.shiftLeft_eq]
    norm_num
    omega
  exact lt_of_lt_of_le h1 (Nat.pow_le_pow_right (by decide) h16)

theorem byte_shl16_lt (intBits e : Nat) (h24 : 24 ≤ intBits) (he : e < 256) :
    e <<< 16 < 2 ^ intBits := by
  have h1 : e <<< 16 < 2 ^ 24 := by
    rw [Nat.shiftLeft_eq]
    norm_num
    omega
  exact lt_of_lt_of_le h1 (Nat.pow_le_pow_right (by decide) h24)

theorem byte_shl0_lt (intBits e : Nat) (h16 : 16 ≤ intBits) (he : e < 256) :
    e <<< 0 < 2 ^ intBits := by
  have h1 : e <<< 0 < 2 ^ 16 := by
    rw [Nat.shiftLeft_zero]
    norm_num
    omega
  exact lt_of_lt_of_le h1 (Nat.pow_le_pow_right (by decide) h16)

/-- The 3-byte definition of `up_getusrpc` on a non-null buffer when `int` has
at least 24 bits: the three bytes are assembled most significant first. -/
theorem up_getusrpc_pc3_wide (intBits : Nat) (h24 : 24 ≤ intBits) (cfg : Config)
    (pc2 : Nat) (hpc : REG_PC2 cfg = some pc2) (cur : Option RegBuf) (regs : RegBuf) :
    up_getusrpc intBits cfg cur (some regs) =
      some (65536 * loadU8 regs (REG_PC0 cfg) + 256 * loadU8 regs (REG_PC1 cfg)
        + loadU8 regs pc2) := by
  have h0 := loadU8_lt regs (REG_PC0 cfg)
  have h1 := loadU8_lt regs (REG_PC1 cfg)
  have h2 := loadU8_lt regs pc2
  simp only [up_getusrpc, hpc]
  rw [shlInt_exact intBits _ 16 (by omega) (byte_shl16_lt intBits _ h24 h0),
    shlInt_exact intBits _ 8 (by omega) (byte_shl8_lt intBits _ (by omega) h1),
    shlInt_exact intBits _ 0 (by omega) (byte_shl0_lt intBits _ (by omega) h2)]
  simp only [Option.bind_eq_bind, Option.some_bind, Option.pure_def]
  rw [shl16_or _ _ _ h1 h2]

/-- The 3-byte definition of `up_getusrpc` when `int` has at most 16 bits: the
shift by 16 is undefined, for every buffer. -/
theorem up_getusrpc_pc3_narrow (intBits : Nat) (h16 : intBits ≤ 16) (cfg : Config)
    (hpc : cfg.AVR_PC_SIZE > 16) (cur : Option RegBuf) (regs : RegBuf) :
    up_getusrpc intBits cfg cur (some regs) = none := by
  simp only [up_getusrpc, REG_PC2, hpc, if_true]
  rw [shlInt_undefined intBits _ 16 h16]
  rfl

/-- C7, evaluated on the 16-bit `int` of the AVR toolchain: in the 3-byte
variant, for the buffer holding `0x01`, `0x02`, `0x03` in the program counter
slots, the expression `up_getusrpc(buffer)` is undefined (the byte promoted to
`int` is shifted by 16, the whole width of `int`) instead of being `0x010203`;
with an `int` of 32 bits the same expression is `0x010203`. -/
theorem up_getusrpc_pc3_int16 :
    up_getusrpc 16 ⟨false, 24⟩ none
      (some (pcBuf (REG_PC0 ⟨false, 24⟩) 0x01 (REG_PC1 ⟨false, 24⟩) 0x02 37 0x03)) = none ∧
    up_getusrpc 16 ⟨true, 24⟩ none
      (some (pcBuf (REG_PC0 ⟨true, 24⟩) 0x01 (REG_PC1 ⟨true, 24⟩) 0x02 38 0x03)) = none ∧
    REG_PC2 ⟨false, 24⟩ = some 37 ∧ REG_PC2 ⟨true, 24⟩ = some 38 ∧
    up_getusrpc 32 ⟨false, 24⟩ none
      (some (pcBuf (REG_PC0 ⟨false, 24⟩) 0x01 (REG_PC1 ⟨false, 24⟩) 0x02 37 0x03)) =
        some 0x010203 := by
  decide

/-- The 2-byte definition of `up_getusrpc` on a non-null buffer, for every
`int` of at least 16 bits: the expression is defined and the bit pattern of its
`int` result is `(buffer[REG_PC0] << 8) | buffer[REG_PC1]`, that is
`256 * buffer[REG_PC0] + buffer[REG_PC1]`; bytes `0x12`, `0x34` give `0x1234`.
The signed value of the result is that same number only when
`buffer[REG_PC0]` is below `0x80` or `int` is wider than 16 bits. -/
theorem up_getusrpc_pc2 (intBits : Nat) (h16 : 16 ≤ intBits) (cfg : Config)
    (hpc : ¬ cfg.AVR_PC_SIZE > 16) (cur : Option RegBuf) (regs : RegBuf) :
    up_getusrpc intBits cfg cur (some regs) =
      some (loadU8 regs (REG_PC0 cfg) <<< 8 ||| loadU8 regs (REG_PC1 cfg)) ∧
    up_getusrpc intBits cfg cur (some regs) =
      some (256 * loadU8 regs (REG_PC0 cfg) + loadU8 regs (REG_PC1 cfg)) ∧
    256 * loadU8 regs (REG_PC0 cfg) + loadU8 regs (REG_PC1 cfg) < 65536 ∧
    (loadU8 regs (REG_PC0 cfg) = 0x12 → loadU8 regs (REG_PC1 cfg) = 0x34 →
      up_getusrpc intBits cfg cur (some regs) = some 0x1234) ∧
    (loadU8 regs (REG_PC0 cfg) < 0x80 ∨ 17 ≤ intBits →
      intValue intBits (256 * loadU8 regs (REG_PC0 cfg) + loadU8 regs (REG_PC1 cfg)) =
        256 * (loadU8 regs (REG_PC0 cfg) : Int) + (loadU8 regs (REG_PC1 cfg) : Int)) := by
  have h0 := loadU8_lt regs (REG_PC0 cfg)
  have h1 := loadU8_lt regs (REG_PC1 cfg)
  have hor : up_getusrpc intBits cfg cur (some regs) =
      some (loadU8 regs (REG_PC0 cfg) <<< 8 ||| loadU8 regs (REG_PC1 cfg)) := by
    simp only [up_getusrpc, REG_PC2, hpc, if_false]
    rw [shlInt_exact intBits _ 8 (by omega) (byte_shl8_lt intBits _ h16 h0),
      shlInt_exact intBits _ 0 (by omega) (byte_shl0_lt intBits _ h16 h1)]
    rfl
  have hsum : up_getusrpc intBits cfg cur (some regs) =
      some (256 * loadU8 regs (REG_PC0 cfg) + loadU8 regs (REG_PC1 cfg)) := by
    rw [hor, shl8_or _ _ h1]
  refine ⟨hor, hsum, by omega, ?_, ?_⟩
  · intro e0 e1
    rw [hsum, e0, e1]
  · intro hv
    have hlt : 256 * loadU8 regs (REG_PC0 cfg) + loadU8 regs (REG_PC1 cfg)
        < 2 ^ (intBits - 1) := by
      rcases hv with hv | hv
      · have : (2 : Nat) ^ 15 ≤ 2 ^ (intBits - 1) :=
          Nat.pow_le_pow_right (by decide) (by omega)
        have h15 : (2 : Nat) ^ 15 = 32768 := by norm_num
        omega
      · have : (2 : Nat) ^ 16 ≤ 2 ^ (intBits - 1) :=
          Nat.pow_le_pow_right (by decide) (by omega)
        have h16 : (2 : Nat) ^ 16 = 65536 := by norm_num
        omega
    simp only [intValue, hlt, if_true]
    push_cast
    rfl

/-- Example of the 2-byte assembly: 16-bit `int`, no `RAMPZ`, program counter
bytes `0x12` and `0x34` in slots 35 and 36. -/
theorem up_getusrpc_pc2_witness :
    (16 : Nat) ≤ 16 ∧ ¬ (16 : Nat) > 16 ∧
    up_getusrpc 16 ⟨false, 16⟩ none (some (pcBuf 35 0x12 36 0x34 0 0)) = some 0x1234 :=
  ⟨by decide, by decide,
   (up_getusrpc_pc2 16 (by decide) ⟨false, 16⟩ (by decide) none
     (pcBuf 35 0x12 36 0x34 0 0)).2.2.2.1 (by decide) (by decide)⟩

/-- C9: in both variants, when `up_current_regs()` denotes the buffer `B`,
`up_getusrpc(NULL)` equals `up_getusrpc(B)`; both are defined as soon as the
largest shift count of the variant is below the width of `int`. -/
theorem up_getusrpc_null_eq_current (intBits : Nat) (cfg : Config)
    (cur : Option RegBuf) (B : RegBuf) (hcur : cur = some B) :
    up_getusrpc intBits cfg cur none = up_getusrpc intBits cfg cur (some B) ∧
    ((if cfg.AVR_PC_SIZE > 16 then 16 else 8) < intBits →
      (up_getusrpc intBits cfg cur none).isSome = true) := by
  subst hcur
  refine ⟨?_, ?_⟩
  · unfold up_getusrpc
    cases REG_PC2 cfg <;> rfl
  · intro h
    by_cases hpc : cfg.AVR_PC_SIZE > 16
    · simp only [hpc, if_true] at h
      simp [up_getusrpc, REG_PC2, hpc, shlInt, h, show 8 < intBits by omega,
        show 0 < intBits by omega]
    · simp only [hpc, if_false] at h
      simp [up_getusrpc, REG_PC2, hpc, shlInt, h, show 0 < intBits by omega]

/-- Witness of C9: 2-byte variant, 16-bit `int`, current register set holding
`0x12`, `0x34` in the program counter slots. -/
theorem up_getusrpc_null_eq_current_witness :
    up_getusrpc 16 ⟨false, 16⟩ (some (pcBuf 35 0x12 36 0x34 0 0)) none =
      up_getusrpc 16 ⟨false, 16⟩ (some (pcBuf 35 0x12 36 0x34 0 0))
        (some (pcBuf 35 0x12 36 0x34 0 0)) ∧
    up_getusrpc 16 ⟨false, 16⟩ (some (pcBuf 35 0x12 36 0x34 0 0)) none = some 0x1234 :=
  ⟨(up_getusrpc_null_eq_current 16 ⟨false, 16⟩ (some (pcBuf 35 0x12 36 0x34 0 0))
     (pcBuf 35 0x12 36 0x34 0 0) rfl).1, by decide⟩

/-! ## Interrupt-state primitive: reads, enable and nesting -/

/-- After `cli` the status register of a CPU is still one byte and its bit 7 is
clear. -/
theorem cli_sreg (c : Cpu) : (cli c).sreg < 256 ∧ (cli c).sreg.testBit 7 = false := by
  have h127 : (0x7F : Nat) = 2 ^ 7 - 1 := by decide
  have hle : c.sreg &&& 0x7F ≤ 0x7F := Nat.and_le_right
  refine ⟨?_, ?_⟩
  · simp only [cli]
    omega
  · simp only [cli, h127, Nat.testBit_and, Nat.testBit_two_pow_sub_one]
    simp

/-- C11: for every 8-bit status register value, `getsreg` returns that value and
leaves the CPU state unchanged, so a second `getsreg` right after the first
returns the same value. -/
theorem getsreg_read_only (c : Cpu) (h : c.sreg < 256) :
    (getsreg c).1 = c.sreg ∧
    (getsreg c).2 = c ∧
    (getsreg (getsreg c).2).1 = (getsreg c).1 := by
  have h1 : c.sreg % 256 = c.sreg := Nat.mod_eq_of_lt h
  simp [getsreg, in_SREG, h1]

/-- Witness of C11 with `SREG = 0xA5`. -/
theorem getsreg_read_only_witness :
    (0xA5 : Nat) < 256 ∧
    (getsreg ⟨0xA5, 0x21, 0xFF⟩).1 = 0xA5 ∧
    (getsreg ⟨0xA5, 0x21, 0xFF⟩).2 = ⟨0xA5, 0x21, 0xFF⟩ ∧
    (getsreg (getsreg ⟨0xA5, 0x21, 0xFF⟩).2).1 = (getsreg ⟨0xA5, 0x21, 0xFF⟩).1 :=
  ⟨by decide, getsreg_read_only ⟨0xA5, 0x21, 0xFF⟩ (by decide)⟩

/-- C12: for every 8-bit status register value, after `up_irq_enable` bit 7 of
the status register is set and every other bit is unchanged; the register is
still one byte and the stack pointer bytes are untouched. -/
theorem up_irq_enable_spec (c : Cpu) (h : c.sreg < 256) :
    (up_irq_enable c).sreg.testBit 7 = true ∧
    (∀ i, i ≠ 7 → (up_irq_enable c).sreg.testBit i = c.sreg.testBit i) ∧
    (up_irq_enable c).sreg < 256 ∧
    (up_irq_enable c).sph = c.sph ∧ (up_irq_enable c).spl = c.spl := by
  have h128 : (0x80 : Nat) = 2 ^ 7 := by decide
  refine ⟨?_, ?_, ?_, rfl, rfl⟩
  · simp only [up_irq_enable, sei, h128, Nat.testBit_or, Nat.testBit_two_pow]
    simp
  · intro i hi
    simp only [up_irq_enable, sei, h128, Nat.testBit_or, Nat.testBit_two_pow]
    have : decide (7 = i) = false := by
      simp
      omega
    simp [this]
  · simp only [up_irq_enable, sei]
    exact Nat.or_lt_two_pow (n := 8) (by simpa using h) (by decide)

/-- Witness of C12 with interrupts disabled (`SREG = 0x25`): bit 7 becomes set
and bit 5 is kept. -/
theorem up_irq_enable_spec_witness :
    (0x25 : Nat) < 256 ∧
    (up_irq_enable ⟨0x25, 0x21, 0xFF⟩).sreg.testBit 7 = true ∧
    (up_irq_enable ⟨0x25, 0x21, 0xFF⟩).sreg.testBit 5 = (0x25 : Nat).testBit 5 ∧
    (up_irq_enable ⟨0x25, 0x21, 0xFF⟩).sreg = 0xA5 :=
  ⟨by decide, (up_irq_enable_spec ⟨0x25, 0x21, 0xFF⟩ (by decide)).1,
   (up_irq_enable_spec ⟨0x25, 0x21, 0xFF⟩ (by decide)).2.1 5 (by decide), by decide⟩

/-- C13: when the caller stacks the tokens, nesting works: for every 8-bit
initial status register value, `t1 = up_irq_save(); t2 = up_irq_save();
up_irq_restore(t2); up_irq_restore(t1)` ends with the status register (and the
CPU state) as at the start, and after the inner restore bit 7 is still clear. -/
theorem nested_save_restore (c : Cpu) (h : c.sreg < 256) :
    (up_irq_restore (up_irq_save c).1
      (up_irq_restore (up_irq_save (up_irq_save c).2).1
        (up_irq_save (up_irq_save c).2).2)).sreg = c.sreg ∧
    up_irq_restore (up_irq_save c).1
      (up_irq_restore (up_irq_save (up_irq_save c).2).1
        (up_irq_save (up_irq_save c).2).2) = c ∧
    (up_irq_restore (up_irq_save (up_irq_save c).2).1
      (up_irq_save (up_irq_save c).2).2).sreg.testBit 7 = false := by
  have h1 : c.sreg % 256 % 256 = c.sreg := by omega
  have hc := cli_sreg c
  have h2 : (cli c).sreg % 256 % 256 = (cli c).sreg := by omega
  refine ⟨?_, ?_, ?_⟩
  · simp [up_irq_restore, up_irq_save, out_SREG, in_SREG, h1]
  · cases c
    simp only [up_irq_restore, up_irq_save, out_SREG, in_SREG, cli] at h h1 ⊢
    simp [h1]
  · simp only [up_irq_restore, up_irq_save, out_SREG, in_SREG, h2]
    exact hc.2

/-- Witness of C13 with interrupts enabled (`SREG = 0xA5`). -/
theorem nested_save_restore_witness :
    (0xA5 : Nat) < 256 ∧
    (up_irq_restore (up_irq_save ⟨0xA5, 0x21, 0xFF⟩).1
      (up_irq_restore (up_irq_save (up_irq_save ⟨0xA5, 0x21, 0xFF⟩).2).1
        (up_irq_save (up_irq_save ⟨0xA5, 0x21, 0xFF⟩).2).2)).sreg = 0xA5 ∧
    (up_irq_restore (up_irq_save (up_irq_save ⟨0xA5, 0x21, 0xFF⟩).2).1
      (up_irq_save (up_irq_save ⟨0xA5, 0x21, 0xFF⟩).2).2).sreg.testBit 7 = false :=
  ⟨by decide, (nested_save_restore ⟨0xA5, 0x21, 0xFF⟩ (by decide)).1,
   (nested_save_restore ⟨0xA5, 0x21, 0xFF⟩ (by decide)).2.2⟩

/-- C15: the pair is not self-nesting: for every initial status register value
with bit 7 set, after `t1 = up_irq_save(); t2 = up_irq_save();
up_irq_restore(t2)` the status register differs from the initial value (bit 7
is clear), and the inner token `t2` has bit 7 clear. -/
theorem save_restore_not_self_nesting (c : Cpu) (hI : c.sreg.testBit 7 = true) :
    (up_irq_restore (up_irq_save (up_irq_save c).2).1
      (up_irq_save (up_irq_save c).2).2).sreg ≠ c.sreg ∧
    (up_irq_restore (up_irq_save (up_irq_save c).2).1
      (up_irq_save (up_irq_save c).2).2).sreg.testBit 7 = false ∧
    (up_irq_save (up_irq_save c).2).1.testBit 7 = false := by
  have hc := cli_sreg c
  have h2 : (cli c).sreg % 256 % 256 = (cli c).sreg := by omega
  have h3 : (cli c).sreg % 256 = (cli c).sreg := by omega
  have hbit : (up_irq_restore (up_irq_save (up_irq_save c).2).1
      (up_irq_save (up_irq_save c).2).2).sreg.testBit 7 = false := by
    simp only [up_irq_restore, up_irq_save, out_SREG, in_SREG, h2]
    exact hc.2
  refine ⟨?_, hbit, ?_⟩
  · intro heq
    rw [heq, hI] at hbit
    exact Bool.noConfusion hbit
  · simp only [up_irq_save, in_SREG, h3]
    exact hc.2

/-- Witness of C15 with interrupts enabled (`SREG = 0xA5`): the status register
ends as `0x25`. -/
theorem save_restore_not_self_nesting_witness :
    (0xA5 : Nat) < 256 ∧ (0xA5 : Nat).testBit 7 = true ∧
    (up_irq_restore (up_irq_save (up_irq_save ⟨0xA5, 0x21, 0xFF⟩).2).1
      (up_irq_save (up_irq_save ⟨0xA5, 0x21, 0xFF⟩).2).2).sreg ≠ 0xA5 ∧
    (up_irq_restore (up_irq_save (up_irq_save ⟨0xA5, 0x21, 0xFF⟩).2).1
      (up_irq_save (up_irq_save ⟨0xA5, 0x21, 0xFF⟩).2).2).sreg = 0x25 ∧
    (up_irq_save (up_irq_save ⟨0xA5, 0x21, 0xFF⟩).2).1.testBit 7 = false :=
  ⟨by decide, by decide,
   (save_restore_not_self_nesting ⟨0xA5, 0x21, 0xFF⟩ (by decide)).1,
   by decide,
   (save_restore_not_self_nesting ⟨0xA5, 0x21, 0xFF⟩ (by decide)).2.2⟩

/-! ## Saved program counter extraction: range and injectivity -/

/-- The 3-byte definition of `up_getusrpc` when `int` has at least 25 bits: the
signed value of the result is the 24-bit number assembled from the three
bytes, which is non-negative and below `2 ^ 24`. -/
theorem up_getusrpc_pc3_value_wide (intBits : Nat) (h25 : 25 ≤ intBits) (cfg : Config)
    (pc2 : Nat) (hpc : REG_PC2 cfg = some pc2) (cur : Option RegBuf) (regs : RegBuf) :
    ∃ p, up_getusrpc intBits cfg cur (some regs) = some p ∧
      intValue intBits p = (p : Int) ∧ p < 2 ^ 24 ∧
      p = 65536 * loadU8 regs (REG_PC0 cfg) + 256 * loadU8 regs (REG_PC1 cfg)
        + loadU8 regs pc2 := by
  have h0 := loadU8_lt regs (REG_PC0 cfg)
  have h1 := loadU8_lt regs (REG_PC1 cfg)
  have h2 := loadU8_lt regs pc2
  refine ⟨_, up_getusrpc_pc3_wide intBits (by omega) cfg pc2 hpc cur regs, ?_, ?_, rfl⟩
  · have hpow : (2 : Nat) ^ 24 ≤ 2 ^ (intBits - 1) :=
      Nat.pow_le_pow_right (by decide) (by omega)
    have h24 : (2 : Nat) ^ 24 = 16777216 := by norm_num
    have hlt : 65536 * loadU8 regs (REG_PC0 cfg) + 256 * loadU8 regs (REG_PC1 cfg)
        + loadU8 regs pc2 < 2 ^ (intBits - 1) := by omega
    simp only [intValue, hlt, if_true]
  · have h24 : (2 : Nat) ^ 24 = 16777216 := by norm_num
    omega

/-- The 2-byte definition of `up_getusrpc` on a 16-bit `int` when the byte in
`REG_PC0` has its top bit set: the signed value of the result is negative. -/
theorem up_getusrpc_pc2_int16_negative (cfg : Config) (hpc : ¬ cfg.AVR_PC_SIZE > 16)
    (cur : Option RegBuf) (regs : RegBuf) (htop : 0x80 ≤ loadU8 regs (REG_PC0 cfg)) :
    ∃ p, up_getusrpc 16 cfg cur (some regs) = some p ∧ intValue 16 p < 0 := by
  have h0 := loadU8_lt regs (REG_PC0 cfg)
  have h1 := loadU8_lt regs (REG_PC1 cfg)
  refine ⟨_, (up_getusrpc_pc2 16 (by decide) cfg hpc cur regs).2.1, ?_⟩
  have hge : ¬ (256 * loadU8 regs (REG_PC0 cfg) + loadU8 regs (REG_PC1 cfg) < 2 ^ (16 - 1)) := by
    norm_num
    omega
  simp only [intValue, hge, if_false]
  push_cast
  norm_num
  omega

/-- C16, evaluated on the 16-bit `int` of the AVR toolchain: in the 2-byte
variant the bytes `0x80`, `0x00` give the `int` with pattern `0x8000`, whose
value is `-32768`, and the bytes `0xFF`, `0xFF` give `-1`, instead of a
non-negative number below `65536`; in the 3-byte variant the expression is
undefined. -/
theorem up_getusrpc_int16_out_of_range :
    up_getusrpc 16 ⟨false, 16⟩ none
      (some (pcBuf (REG_PC0 ⟨false, 16⟩) 0x80 (REG_PC1 ⟨false, 16⟩) 0x00 0 0)) = some 0x8000 ∧
    intValue 16 0x8000 = -32768 ∧
    up_getusrpc 16 ⟨true, 16⟩ none
      (some (pcBuf (REG_PC0 ⟨true, 16⟩) 0xFF (REG_PC1 ⟨true, 16⟩) 0xFF 0 0)) = some 0xFFFF ∧
    intValue 16 0xFFFF = -1 ∧
    up_getusrpc 16 ⟨false, 24⟩ none
      (some (pcBuf (REG_PC0 ⟨false, 24⟩) 0x80 (REG_PC1 ⟨false, 24⟩) 0x00 37 0x00)) = none := by
  decide

/-- The result of `up_getusrpc` on a non-null buffer depends only on the bytes
in the program counter slots, in every variant and for every width of `int`. -/
theorem up_getusrpc_pc_only (intBits : Nat) (cfg : Config) (cur : Option RegBuf)
    (r1 r2 : RegBuf)
    (h0 : loadU8 r1 (REG_PC0 cfg) = loadU8 r2 (REG_PC0 cfg))
    (h1 : loadU8 r1 (REG_PC1 cfg) = loadU8 r2 (REG_PC1 cfg))
    (h2 : ∀ pc2, REG_PC2 cfg = some pc2 → loadU8 r1 pc2 = loadU8 r2 pc2) :
    up_getusrpc intBits cfg cur (some r1) = up_getusrpc intBits cfg cur (some r2) := by
  unfold up_getusrpc
  cases hpc : REG_PC2 cfg with
  | none => simp only [h0, h1]
  | some pc2 => simp only [h0, h1, h2 pc2 hpc]

/-- In the 2-byte variant, for every `int` of at least 16 bits, both program
counter bytes are recovered from the result by shifting and masking. -/
theorem up_getusrpc_pc2_recover (intBits : Nat) (h16 : 16 ≤ intBits) (cfg : Config)
    (hpc : ¬ cfg.AVR_PC_SIZE > 16) (cur : Option RegBuf) (regs : RegBuf) :
    ∃ p, up_getusrpc intBits cfg cur (some regs) = some p ∧
      (p >>> 8) &&& 0xFF = loadU8 regs (REG_PC0 cfg) ∧
      (p >>> 0) &&& 0xFF = loadU8 regs (REG_PC1 cfg) := by
  have h0 := loadU8_lt regs (REG_PC0 cfg)
  have h1 := loadU8_lt regs (REG_PC1 cfg)
  have hFF : (0xFF : Nat) = 2 ^ 8 - 1 := by decide
  refine ⟨_, (up_getusrpc_pc2 intBits h16 cfg hpc cur regs).2.1, ?_, ?_⟩
  · rw [hFF, Nat.and_pow_two_sub_one_eq_mod, Nat.shiftRight_eq_div_pow]
    norm_num
    omega
  · rw [hFF, Nat.and_pow_two_sub_one_eq_mod, Nat.shiftRight_eq_div_pow]
    norm_num
    omega

/-- In the 3-byte variant, when `int` has at least 24 bits, the three program
counter bytes are recovered from the result by shifting and masking. -/
theorem up_getusrpc_pc3_recover_wide (intBits : Nat) (h24 : 24 ≤ intBits) (cfg : Config)
    (pc2 : Nat) (hpc : REG_PC2 cfg = some pc2) (cur : Option RegBuf) (regs : RegBuf) :
    ∃ p, up_getusrpc intBits cfg cur (some regs) = some p ∧
      (p >>> 16) &&& 0xFF = loadU8 regs (REG_PC0 cfg) ∧
      (p >>> 8) &&& 0xFF = loadU8 regs (REG_PC1 cfg) ∧
      (p >>> 0) &&& 0xFF = loadU8 regs pc2 := by
  have h0 := loadU8_lt regs (REG_PC0 cfg)
  have h1 := loadU8_lt regs (REG_PC1 cfg)
  have h2 := loadU8_lt regs pc2
  have hFF : (0xFF : Nat) = 2 ^ 8 - 1 := by decide
  refine ⟨_, up_getusrpc_pc3_wide intBits h24 cfg pc2 hpc cur regs, ?_, ?_, ?_⟩
  · rw [hFF, Nat.and_pow_two_sub_one_eq_mod, Nat.shiftRight_eq_div_pow]
    norm_num
    omega
  · rw [hFF, Nat.and_pow_two_sub_one_eq_mod, Nat.shiftRight_eq_div_pow]
    norm_num
    omega
  · rw [hFF, Nat.and_pow_two_sub_one_eq_mod, Nat.shiftRight_eq_div_pow]
    norm_num
    omega

/-- C17, evaluated on the 16-bit `int` of the AVR toolchain: in the 3-byte
variant two buffers that differ in the byte of `REG_PC0` (`0x01` and `0x02`)
both make `up_getusrpc` undefined, so no result distinguishes them and no byte
can be recovered from it; with an `int` of 32 bits the two results differ. -/
theorem up_getusrpc_pc3_int16_not_recoverable :
    loadU8 (pcBuf 35 0x01 36 0x02 37 0x03) (REG_PC0 ⟨false, 24⟩) = 0x01 ∧
    loadU8 (pcBuf 35 0x02 36 0x02 37 0x03) (REG_PC0 ⟨false, 24⟩) = 0x02 ∧
    up_getusrpc 16 ⟨false, 24⟩ none (some (pcBuf 35 0x01 36 0x02 37 0x03)) = none ∧
    up_getusrpc 16 ⟨false, 24⟩ none (some (pcBuf 35 0x02 36 0x02 37 0x03)) = none ∧
    up_getusrpc 32 ⟨false, 24⟩ none (some (pcBuf 35 0x01 36 0x02 37 0x03)) = some 0x010203 ∧
    up_getusrpc 32 ⟨false, 24⟩ none (some (pcBuf 35 0x02 36 0x02 37 0x03)) = some 0x020203 := by
  decide

/-! ## Stack pointer -/

/-- C18: for every pair of stack pointer bytes, `up_getsp` returns
`256 * SPH + SPL`, a number between 0 and 65535, and leaves the CPU state
unchanged. -/
theorem up_getsp_spec (c : Cpu) (hh : c.sph < 256) (hl : c.spl < 256) :
    (up_getsp c).1 = 256 * c.sph + c.spl ∧
    (up_getsp c).1 = (c.sph <<< 8 ||| c.spl) ∧
    (up_getsp c).1 < 65536 ∧
    (up_getsp c).2 = c := by
  have e1 : c.spl % 256 = c.spl := Nat.mod_eq_of_lt hl
  have e2 : c.sph % 256 = c.sph := Nat.mod_eq_of_lt hh
  have e3 : c.sph % 65536 = c.sph := Nat.mod_eq_of_lt (by omega)
  have hs : c.sph <<< 8 = 256 * c.sph := by
    rw [Nat.shiftLeft_eq]
    norm_num
    omega
  have e4 : c.sph <<< 8 % 65536 = c.sph <<< 8 := Nat.mod_eq_of_lt (by omega)
  have hor := shl8_or c.sph c.spl hl
  have e5 : (c.sph <<< 8 ||| c.spl) % 65536 = c.sph <<< 8 ||| c.spl :=
    Nat.mod_eq_of_lt (by omega)
  have hval : (up_getsp c).1 = (c.sph <<< 8 ||| c.spl) := by
    simp only [up_getsp, e1, e2, e3, e4, e5]
  refine ⟨hval.trans hor, hval, ?_, rfl⟩
  rw [hval, hor]
  omega

/-- Witness of C18 with `SPH = 0x21`, `SPL = 0xFF`: the stack pointer is
`0x21FF`. -/
theorem up_getsp_spec_witness :
    (0x21 : Nat) < 256 ∧ (0xFF : Nat) < 256 ∧
    (up_getsp ⟨0xA5, 0x21, 0xFF⟩).1 = 256 * 0x21 + 0xFF ∧
    (up_getsp ⟨0xA5, 0x21, 0xFF⟩).1 = 0x21FF :=
  ⟨by decide, by decide,
   (up_getsp_spec ⟨0xA5, 0x21, 0xFF⟩ (by decide) (by decide)).1, by decide⟩

/-! ## Saved program counter extraction: the 2-byte value on a 16-bit `int` -/

end AvrIrq
